import Mathlib

/-!
Verification of the reconciliation-and-execution engine of the repository
(`src/executor.py`).  The definitions below are a shallow embedding of the
Python source: dictionaries become association lists (Python dicts preserve
insertion order, as lists do), floats become rationals, the imperative
plan-building loops of `BinanceFuturesExecutor.execute_trades` become pure
list-producing functions appending in the source's order, and the unbounded
`while` loop in `BinanceFuturesExecutor.place_order` becomes a fuel-indexed
recursion where `none` means the loop has not finished within the given
number of iterations.
-/

/-- Position side tag, as used by the `positionSide` dict entries in
`execute_trades` (executor.py lines 453-455). -/
inductive PositionSide where
  | LONG
  | SHORT
deriving DecidableEq, Repr

/-- Order side, the `'buy'` / `'sell'` strings of the source. -/
inductive OrderSide where
  | buy
  | sell
deriving DecidableEq, Repr

/-- The `'action'` field of a trade-plan entry: `'close'` or `'adjust'`
(executor.py lines 471, 509). -/
inductive ActionKind where
  | close
  | adjust
deriving DecidableEq, Repr

/-- One entry of the `trade_plan` list built in `execute_trades`
(executor.py lines 466-552): a dict with keys
`symbol`, `side`, `quantity`, `positionSide`, `action`. -/
structure TradeAction where
  symbol : String
  side : OrderSide
  quantity : ℚ
  positionSide : PositionSide
  action : ActionKind
deriving DecidableEq, Repr

/-- The per-symbol value `{'LONG': x, 'SHORT': y}` of the
`current_positions` dict built in `execute_trades` (executor.py line 453). -/
structure SideQty where
  long : ℚ
  short : ℚ
deriving DecidableEq, Repr

/-- `current_positions`: dict from formatted symbol to per-side quantities,
modelled as an insertion-ordered association list. -/
abbrev CurrentBook := List (String × SideQty)

/-- `target_positions`: dict from symbol to signed target quantity. -/
abbrev TargetBook := List (String × ℚ)

/-- `BinanceFuturesExecutor.format_symbol_for_binance` (executor.py lines
196-209), translated at character level: `symbol.split(':')[0]` is
`takeWhile (c not colon)`, `symbol.replace('/', '')` is
`filter (c not slash)`, then the `USDT` suffix is stripped if present and
re-appended. -/
def format_symbol_for_binance (symbol : String) : String :=
  let cs := (symbol.toList.takeWhile (fun c => c ≠ ':')).filter (fun c => c ≠ '/')
  let cs := if cs.drop (cs.length - 4) = ['U', 'S', 'D', 'T'] ∧ 4 ≤ cs.length
    then cs.take (cs.length - 4) else cs
  String.mk (cs ++ ['U', 'S', 'D', 'T'])

/-- `current_positions.get(s, {'LONG': 0, 'SHORT': 0})`
(executor.py line 487). -/
def lookupSide (book : CurrentBook) (s : String) : SideQty :=
  match book.find? (fun p => p.1 == s) with
  | some p => p.2
  | none => ⟨0, 0⟩

/-- `s in target_positions` (executor.py line 462). -/
def containsKey (target : TargetBook) (s : String) : Bool :=
  target.any (fun p => p.1 == s)

/-- Step 1 of the planner (executor.py lines 460-482): for one entry of
`current_positions`, if its symbol is not a key of `target_positions`,
emit a close for the LONG side when positive, then a close for the SHORT
side when positive. -/
def clear_actions (target : TargetBook) (entry : String × SideQty) : List TradeAction :=
  if containsKey target entry.1 then []
  else
    (if 0 < entry.2.long then
      [⟨entry.1, OrderSide.sell, entry.2.long, PositionSide.LONG, ActionKind.close⟩]
     else []) ++
    (if 0 < entry.2.short then
      [⟨entry.1, OrderSide.buy, entry.2.short, PositionSide.SHORT, ActionKind.close⟩]
     else [])

/-- Step 2 of the planner (executor.py lines 485-552): for one entry
`(symbol, target_qty)` of `target_positions`, look up the current sides
under the formatted symbol and emit, in source order: for a positive
target an opposite (SHORT) close when the short side is positive, then an
adjust on the LONG side when `abs(target_qty - long) > 1`; symmetrically
for a negative target; for a zero target a close per positive side. -/
def target_actions (current : CurrentBook) (entry : String × ℚ) : List TradeAction :=
  let symbol := entry.1
  let target_qty := entry.2
  let current_info := lookupSide current (format_symbol_for_binance symbol)
  if 0 < target_qty then
    (if 0 < current_info.short then
      [⟨symbol, OrderSide.buy, current_info.short, PositionSide.SHORT, ActionKind.close⟩]
     else []) ++
    (let qty_diff := target_qty - current_info.long
     if 1 < |qty_diff| then
      [⟨symbol, if 0 < qty_diff then OrderSide.buy else OrderSide.sell, |qty_diff|,
        PositionSide.LONG, ActionKind.adjust⟩]
     else [])
  else if target_qty < 0 then
    (if 0 < current_info.long then
      [⟨symbol, OrderSide.sell, current_info.long, PositionSide.LONG, ActionKind.close⟩]
     else []) ++
    (let qty_diff := |target_qty| - current_info.short
     if 1 < |qty_diff| then
      [⟨symbol, if 0 < qty_diff then OrderSide.sell else OrderSide.buy, |qty_diff|,
        PositionSide.SHORT, ActionKind.adjust⟩]
     else [])
  else
    (if 0 < current_info.long then
      [⟨symbol, OrderSide.sell, current_info.long, PositionSide.LONG, ActionKind.close⟩]
     else []) ++
    (if 0 < current_info.short then
      [⟨symbol, OrderSide.buy, current_info.short, PositionSide.SHORT, ActionKind.close⟩]
     else [])

/-- The full `trade_plan` built by `execute_trades` (executor.py lines
457-552): the clear-out loop over `current_positions` followed by the
adjustment loop over `target_positions`. -/
def execute_trades_plan (current : CurrentBook) (target : TargetBook) : List TradeAction :=
  current.flatMap (clear_actions target) ++ target.flatMap (target_actions current)

/-- The minimum-notional padding loop of `BinanceFuturesExecutor.place_order`
(executor.py lines 229-234):

    while notional_value < 5:
        if quantity > 0: quantity += 1
        else: quantity -= 1
        notional_value = abs(quantity) * current_price

The source loop is unbounded; here it is indexed by fuel, with `none`
meaning the loop has not produced a value within `fuel` iterations (so
`pad_loop fuel q p = none` for every `fuel` means the source loop never
terminates on that input). -/
def pad_loop (fuel : ℕ) (quantity price : ℚ) : Option ℚ :=
  match fuel with
  | 0 => none
  | fuel + 1 =>
    if |quantity| * price < 5 then
      pad_loop fuel (if 0 < quantity then quantity + 1 else quantity - 1) price
    else some quantity

/-- The quantity-determination pipeline of
`BinanceFuturesExecutor.place_order` (executor.py lines 218-276), from the
requested quantity to the quantity submitted to `create_order`:
padding to the 5-USDT minimum notional unless `params` carries
`reduceOnly=True` (line 227), then `quantity = int(abs(quantity))`
(line 269; `abs` makes Python's `int` truncation equal to the floor),
then the minimum-amount check that returns `None` — the action is skipped
— when the quantity is below `market['limits']['amount']['min']`
(lines 273-276).  The result is the submitted quantity, or `none` when the
order is not submitted (padding non-termination within `fuel`, or
below-minimum rejection). -/
def place_order_quantity (fuel : ℕ) (price quantity : ℚ) (reduceOnly : Bool)
    (min_amount : ℚ) : Option ℚ :=
  let padded := if |quantity| * price < 5 ∧ reduceOnly = false
    then pad_loop fuel quantity price else some quantity
  match padded with
  | none => none
  | some q =>
    let n : ℤ := ⌊|q|⌋
    if (n : ℚ) < min_amount then none else some ((n : ℚ))

/-- The invocation of `place_order` made by `execute_trades`
(executor.py lines 567-572): `params` is `{'positionSide': ...}` for every
planned action, close actions included, so `params.get('reduceOnly',
False)` is `False` and the padding of `place_order` applies to the
action's quantity unconditionally. -/
def execute_trades_order_quantity (fuel : ℕ) (price min_amount : ℚ)
    (a : TradeAction) : Option ℚ :=
  place_order_quantity fuel price a.quantity false min_amount

/-- The order record returned by a successful `create_order` call,
abstracted to an identifier. -/
structure OrderRecord where
  orderId : ℕ
deriving DecidableEq, Repr

/-- The outcome of one `place_order` call as `execute_trades` makes it
(executor.py lines 211-311 called from 567-572): the submitted quantity is
determined by `place_order_quantity` with `reduceOnly = false` (the
`params` built at line 571 has no `reduceOnly` key); `none` from the sizing
pipeline is the below-minimum skip (line 276).  `env` is the exchange's
response to `create_order` for a given action and submitted quantity;
`Except.error` models a raised exception, which the catch-all at lines
309-311 turns into a logged `None` return, never a propagated exception.
`price` and `min_amount` are the per-symbol ticker price and minimum
amount fetched at lines 220-221 and 273. -/
def place_order_outcome (fuel : ℕ) (price min_amount : String → ℚ)
    (env : TradeAction → ℚ → Except String OrderRecord) (a : TradeAction) :
    Option OrderRecord :=
  let fs := format_symbol_for_binance a.symbol
  match place_order_quantity fuel (price fs) a.quantity false (min_amount fs) with
  | none => none
  | some q =>
    match env a q with
    | Except.ok o => some o
    | Except.error _ => none

/-- The submission loop of `execute_trades` (executor.py lines 557-577):
every action of the plan is submitted in order, each producing its own
outcome; nothing in the loop body can raise (both `set_leverage` and
`place_order` catch internally), so no outcome stops the iteration. -/
def execute_trades_run (fuel : ℕ) (price min_amount : String → ℚ)
    (env : TradeAction → ℚ → Except String OrderRecord) :
    List TradeAction → List (TradeAction × Option OrderRecord)
  | [] => []
  | a :: rest =>
    (a, place_order_outcome fuel price min_amount env a) ::
      execute_trades_run fuel price min_amount env rest

/-- `BinanceFuturesExecutor.get_account_balance` (executor.py lines
154-163): the free USDT balance, with every exception caught and turned
into the return value `0.0`. -/
def get_account_balance (fetch_balance : Except String ℚ) : ℚ :=
  match fetch_balance with
  | Except.ok b => b
  | Except.error _ => 0

/-- The balance gate of `run_daily_trade` (executor.py lines 638-642 and
645): the cycle aborts — returning before `execute_trades` is reached, so
before any trade plan is built or any order submitted — unless the
reported balance is strictly positive; otherwise the trade plan is built
and executed. -/
def run_daily_trade_orders (fetch_balance : Except String ℚ) (current : CurrentBook)
    (target : TargetBook) : Option (List TradeAction) :=
  if get_account_balance fetch_balance ≤ 0 then none
  else some (execute_trades_plan current target)

/-- Ordering relation for plan actions: an adjust for an instrument never
appears before a close for the same instrument. -/
def NoAdjustBeforeClose (a b : TradeAction) : Prop :=
  a.symbol = b.symbol → ¬(a.action = ActionKind.adjust ∧ b.action = ActionKind.close)

/-!  ## Helper lemmas  -/

/-- Every action emitted by the clear-out loop carries the current entry's
symbol, is a close, has positive quantity, and only exists when the symbol
is not targeted. -/
theorem mem_clear_actions {target : TargetBook} {e : String × SideQty} {a : TradeAction}
    (h : a ∈ clear_actions target e) :
    a.symbol = e.1 ∧ a.action = ActionKind.close ∧ 0 < a.quantity ∧
      containsKey target e.1 = false := by
  unfold clear_actions at h
  split at h
  · simp at h
  · next hc =>
    rcases List.mem_append.1 h with h1 | h1 <;> split at h1 <;> simp_all

/-- Every action emitted by the adjustment loop for a target entry carries
that entry's symbol and has positive quantity. -/
theorem mem_target_actions {current : CurrentBook} {e : String × ℚ} {a : TradeAction}
    (h : a ∈ target_actions current e) : a.symbol = e.1 ∧ 0 < a.quantity := by
  unfold target_actions at h
  dsimp only at h
  split at h
  · rcases List.mem_append.1 h with h1 | h1 <;> split at h1 <;> simp_all [-abs_pos]
    all_goals linarith
  · split at h
    · rcases List.mem_append.1 h with h1 | h1 <;> split at h1 <;> simp_all [-abs_pos]
      all_goals linarith
    · rcases List.mem_append.1 h with h1 | h1 <;> split at h1 <;> simp_all

/-- Membership in the built trade plan comes from one of the two loops. -/
theorem mem_execute_trades_plan {current : CurrentBook} {target : TargetBook}
    {a : TradeAction} :
    a ∈ execute_trades_plan current target ↔
      (∃ e ∈ current, a ∈ clear_actions target e) ∨
      (∃ e ∈ target, a ∈ target_actions current e) := by
  unfold execute_trades_plan
  simp [List.mem_append, List.mem_flatMap]

/-- Claim C2: for every current position book and every target position
book, every action the planner emits — close and adjust alike — has
strictly positive quantity; no zero- or negative-quantity action appears
in the plan. -/
theorem C2_quantity_positive (current : CurrentBook) (target : TargetBook)
    (a : TradeAction) (ha : a ∈ execute_trades_plan current target) :
    0 < a.quantity := by
  rcases mem_execute_trades_plan.1 ha with ⟨e, _, h⟩ | ⟨e, _, h⟩
  · exact (mem_clear_actions h).2.2.1
  · exact (mem_target_actions h).2

theorem C2_witness :
    (⟨"BTCUSDT", OrderSide.buy, 10, PositionSide.LONG, ActionKind.adjust⟩ : TradeAction) ∈
        execute_trades_plan [] [("BTCUSDT", (10 : ℚ))] ∧
      0 < (⟨"BTCUSDT", OrderSide.buy, 10, PositionSide.LONG, ActionKind.adjust⟩ :
        TradeAction).quantity :=
  ⟨by with_unfolding_all decide,
   C2_quantity_positive [] [("BTCUSDT", (10 : ℚ))] _ (by with_unfolding_all decide)⟩

/-- Claim C1: if the current book already equals the target — every
targeted instrument holds exactly the target magnitude on the target's
side and zero on the opposite side, and no non-targeted instrument holds
a nonzero side — then the planner produces an empty plan.  Symbols are
taken in the canonical (formatted) form the current book's keys always
have. -/
theorem C1_idempotent (current : CurrentBook) (target : TargetBook)
    (hfmt : ∀ p ∈ target, format_symbol_for_binance p.1 = p.1)
    (htgt : ∀ p ∈ target, lookupSide current p.1 =
        if 0 < p.2 then ⟨p.2, 0⟩ else if p.2 < 0 then ⟨0, -p.2⟩ else ⟨0, 0⟩)
    (hcur : ∀ p ∈ current, containsKey target p.1 = false →
        p.2.long = 0 ∧ p.2.short = 0) :
    execute_trades_plan current target = [] := by
  unfold execute_trades_plan
  rw [List.append_eq_nil]
  constructor
  · rw [List.flatMap_eq_nil_iff]
    intro e he
    unfold clear_actions
    split
    · rfl
    · next hc =>
      obtain ⟨hl, hs⟩ := hcur e he (by simpa using hc)
      rw [hl, hs]
      norm_num
  · rw [List.flatMap_eq_nil_iff]
    intro e he
    unfold target_actions
    dsimp only
    rw [hfmt e he, htgt e he]
    rcases lt_trichotomy e.2 0 with hq | hq | hq
    · simp only [if_neg (by linarith : ¬ (0:ℚ) < e.2), if_pos hq]
      simp [abs_of_neg hq]
    · simp [hq]
    · simp only [if_pos hq]
      simp

theorem C1_witness :
    execute_trades_plan [("BTCUSDT", ⟨10, 0⟩), ("AAAUSDT", ⟨0, 2⟩)]
        [("BTCUSDT", (10 : ℚ)), ("AAAUSDT", (-2 : ℚ))] = [] :=
  C1_idempotent _ _ (by with_unfolding_all decide) (by with_unfolding_all decide)
    (by with_unfolding_all decide)

/-- A pair whose first component is a close always satisfies the
ordering relation. -/
theorem noAdjustBeforeClose_of_close {a b : TradeAction}
    (h : a.action = ActionKind.close) : NoAdjustBeforeClose a b := by
  intro _ hc
  rw [h] at hc
  exact absurd hc.1 (by simp)

/-- Within one target entry's emitted block, closes precede adjusts. -/
theorem target_actions_pairwise (current : CurrentBook) (e : String × ℚ) :
    (target_actions current e).Pairwise NoAdjustBeforeClose := by
  unfold target_actions
  dsimp only
  split
  · split <;> split <;> simp_all [NoAdjustBeforeClose]
  · split
    · split <;> split <;> simp_all [NoAdjustBeforeClose]
    · split <;> split <;> simp_all [NoAdjustBeforeClose]

/-- The whole plan is pairwise ordered: for any two actions on the same
instrument, the earlier one is never an adjust followed by a close.
Requires the target book's keys to be distinct, which a Python dict
guarantees. -/
theorem execute_trades_plan_pairwise (current : CurrentBook) (target : TargetBook)
    (hnd : (target.map Prod.fst).Nodup) :
    (execute_trades_plan current target).Pairwise NoAdjustBeforeClose := by
  unfold execute_trades_plan
  rw [List.pairwise_append]
  refine ⟨?_, ?_, ?_⟩
  · apply List.pairwise_of_forall_mem_list
    intro a ha b _
    rcases List.mem_flatMap.1 ha with ⟨e, _, hae⟩
    exact noAdjustBeforeClose_of_close (mem_clear_actions hae).2.1
  · rw [List.pairwise_flatMap]
    refine ⟨fun e _ => target_actions_pairwise current e, ?_⟩
    have hp : target.Pairwise (fun e1 e2 : String × ℚ => e1.1 ≠ e2.1) := by
      rw [List.Nodup, List.pairwise_map] at hnd
      exact hnd
    refine hp.imp ?_
    intro e1 e2 hne x hx y hy hsym hc
    exact hne (((mem_target_actions hx).1).symm.trans
      (hsym.trans (mem_target_actions hy).1))
  · intro a ha b _
    rcases List.mem_flatMap.1 ha with ⟨e, _, hae⟩
    exact noAdjustBeforeClose_of_close (mem_clear_actions hae).2.1

/-- Claim C3: within one instrument's actions in the emitted plan, a close
(in particular the opposite-side close) always occurs before the
same-instrument adjust: whenever position `i` of the plan holds a close
and position `j` holds an adjust for the same instrument, `i < j`.
The target book's keys are distinct, as Python dict keys are. -/
theorem C3_close_precedes_adjust (current : CurrentBook) (target : TargetBook)
    (hnd : (target.map Prod.fst).Nodup) (i j : ℕ)
    (hi : i < (execute_trades_plan current target).length)
    (hj : j < (execute_trades_plan current target).length)
    (hsym : (execute_trades_plan current target)[i].symbol =
      (execute_trades_plan current target)[j].symbol)
    (hclose : (execute_trades_plan current target)[i].action = ActionKind.close)
    (hadj : (execute_trades_plan current target)[j].action = ActionKind.adjust) :
    i < j := by
  have hp := execute_trades_plan_pairwise current target hnd
  rw [List.pairwise_iff_getElem] at hp
  rcases lt_trichotomy i j with h | h | h
  · exact h
  · subst h
    rw [hclose] at hadj
    cases hadj
  · exact absurd (hp j i hj hi h hsym.symm ⟨hadj, hclose⟩) not_false

theorem C3_witness : 0 < 1 :=
  C3_close_precedes_adjust [("BTCUSDT", ⟨3, 0⟩)] [("BTCUSDT", (-4 : ℚ))]
    (by with_unfolding_all decide) 0 1 (by with_unfolding_all decide)
    (by with_unfolding_all decide) (by with_unfolding_all decide)
    (by with_unfolding_all decide) (by with_unfolding_all decide)

/-- A target entry's key is (boolean) contained in the target book. -/
theorem containsKey_of_mem {target : TargetBook} {e : String × ℚ} (h : e ∈ target) :
    containsKey target e.1 = true := by
  unfold containsKey
  rw [List.any_eq_true]
  exact ⟨e, h, by simp⟩

/-- With distinct current keys, counting actions that belong to instrument
`i` over the whole clear-out loop counts only the block of `i`'s entry. -/
theorem clear_countP (target : TargetBook) (pred : TradeAction → Bool) (i : String)
    (info : SideQty) (hpred : ∀ a, pred a = true → a.symbol = i) :
    ∀ current : CurrentBook, (current.map Prod.fst).Nodup → (i, info) ∈ current →
      (current.flatMap (clear_actions target)).countP pred =
        (clear_actions target (i, info)).countP pred := by
  intro current
  induction current with
  | nil => intro _ h; cases h
  | cons e rest ih =>
    intro hnd hmem
    rw [List.flatMap_cons, List.countP_append]
    rw [List.map_cons, List.nodup_cons] at hnd
    rcases List.mem_cons.1 hmem with heq | hmem2
    · have hz : (rest.flatMap (clear_actions target)).countP pred = 0 := by
        rw [List.countP_eq_zero]
        intro a ha hp
        rcases List.mem_flatMap.1 ha with ⟨e2, he2, hae⟩
        have h1 : a.symbol = e2.1 := (mem_clear_actions hae).1
        have h2 : a.symbol = i := hpred a hp
        rw [h1] at h2
        apply hnd.1
        rw [← heq]
        show i ∈ rest.map Prod.fst
        rw [← h2]
        exact List.mem_map_of_mem Prod.fst he2
      rw [hz, ← heq]
      simp
    · have hne : e.1 ≠ i := by
        intro h
        apply hnd.1
        rw [h]
        exact List.mem_map_of_mem Prod.fst hmem2
      have hz : (clear_actions target e).countP pred = 0 := by
        rw [List.countP_eq_zero]
        intro a ha hp
        exact hne ((mem_clear_actions ha).1.symm.trans (hpred a hp))
      rw [hz, ih hnd.2 hmem2]
      simp

/-- The clear-out block of a non-targeted entry, written out. -/
theorem clear_actions_eval (target : TargetBook) (i : String) (info : SideQty)
    (habs : containsKey target i = false) :
    clear_actions target (i, info) =
      (if 0 < info.long then
        [⟨i, OrderSide.sell, info.long, PositionSide.LONG, ActionKind.close⟩]
       else []) ++
      (if 0 < info.short then
        [⟨i, OrderSide.buy, info.short, PositionSide.SHORT, ActionKind.close⟩]
       else []) := by
  unfold clear_actions
  simp [habs]

/-- Claim C4: an instrument present in the current book but absent from
the target book gets exactly one close per nonzero side in the plan (the
book's sides being nonnegative, per the data model) and no adjust action.
Keys of the current book are distinct, as Python dict keys are. -/
theorem C4_full_clear (current : CurrentBook) (target : TargetBook) (i : String)
    (info : SideQty) (hnd : (current.map Prod.fst).Nodup) (hmem : (i, info) ∈ current)
    (habs : containsKey target i = false) (hl : 0 ≤ info.long) (hs : 0 ≤ info.short) :
    ((execute_trades_plan current target).countP (fun a =>
        a.symbol == i && a.positionSide == PositionSide.LONG &&
          a.action == ActionKind.close)) = (if info.long ≠ 0 then 1 else 0) ∧
    ((execute_trades_plan current target).countP (fun a =>
        a.symbol == i && a.positionSide == PositionSide.SHORT &&
          a.action == ActionKind.close)) = (if info.short ≠ 0 then 1 else 0) ∧
    ((execute_trades_plan current target).countP (fun a =>
        a.symbol == i && a.action == ActionKind.adjust)) = 0 := by
  have hstep2 : ∀ pred : TradeAction → Bool, (∀ a, pred a = true → a.symbol = i) →
      (target.flatMap (target_actions current)).countP pred = 0 := by
    intro pred hpred
    rw [List.countP_eq_zero]
    intro a ha hp
    rcases List.mem_flatMap.1 ha with ⟨e, he, hae⟩
    have h1 : a.symbol = e.1 := (mem_target_actions hae).1
    have h2 : a.symbol = i := hpred a hp
    rw [h1] at h2
    have hck := containsKey_of_mem he
    rw [h2, habs] at hck
    cases hck
  refine ⟨?_, ?_, ?_⟩
  · have hpred : ∀ a : TradeAction,
        (a.symbol == i && a.positionSide == PositionSide.LONG &&
          a.action == ActionKind.close) = true → a.symbol = i := by
      intro a h
      simp only [Bool.and_eq_true, beq_iff_eq] at h
      exact h.1.1
    unfold execute_trades_plan
    rw [List.countP_append, clear_countP target _ i info hpred current hnd hmem,
      hstep2 _ hpred, clear_actions_eval target i info habs, List.countP_append]
    rcases eq_or_lt_of_le hl with h | h
    · rcases eq_or_lt_of_le hs with h2 | h2
      · simp [← h, ← h2]
      · simp [← h, h2]
    · rcases eq_or_lt_of_le hs with h2 | h2
      · simp [← h2, h, h.ne']
      · simp [h, h2, h.ne']
  · have hpred : ∀ a : TradeAction,
        (a.symbol == i && a.positionSide == PositionSide.SHORT &&
          a.action == ActionKind.close) = true → a.symbol = i := by
      intro a h
      simp only [Bool.and_eq_true, beq_iff_eq] at h
      exact h.1.1
    unfold execute_trades_plan
    rw [List.countP_append, clear_countP target _ i info hpred current hnd hmem,
      hstep2 _ hpred, clear_actions_eval target i info habs, List.countP_append]
    rcases eq_or_lt_of_le hl with h | h
    · rcases eq_or_lt_of_le hs with h2 | h2
      · simp [← h, ← h2]
      · simp [← h, h2, h2.ne']
    · rcases eq_or_lt_of_le hs with h2 | h2
      · simp [← h2, h]
      · simp [h, h2, h2.ne']
  · have hpred : ∀ a : TradeAction,
        (a.symbol == i && a.action == ActionKind.adjust) = true → a.symbol = i := by
      intro a h
      simp only [Bool.and_eq_true, beq_iff_eq] at h
      exact h.1
    unfold execute_trades_plan
    rw [List.countP_append, clear_countP target _ i info hpred current hnd hmem,
      hstep2 _ hpred]
    have hz : (clear_actions target (i, info)).countP (fun a =>
        a.symbol == i && a.action == ActionKind.adjust) = 0 := by
      rw [List.countP_eq_zero]
      intro a ha hp
      simp only [Bool.and_eq_true, beq_iff_eq] at hp
      have := (mem_clear_actions ha).2.1
      rw [hp.2] at this
      cases this
    rw [hz]

theorem C4_witness :
    ((execute_trades_plan [("ETHUSDT", ⟨5, 0⟩)] []).countP (fun a =>
        a.symbol == "ETHUSDT" && a.positionSide == PositionSide.LONG &&
          a.action == ActionKind.close)) = (if (5 : ℚ) ≠ 0 then 1 else 0) ∧
    ((execute_trades_plan [("ETHUSDT", ⟨5, 0⟩)] []).countP (fun a =>
        a.symbol == "ETHUSDT" && a.positionSide == PositionSide.SHORT &&
          a.action == ActionKind.close)) = (if (0 : ℚ) ≠ 0 then 1 else 0) ∧
    ((execute_trades_plan [("ETHUSDT", ⟨5, 0⟩)] []).countP (fun a =>
        a.symbol == "ETHUSDT" && a.action == ActionKind.adjust)) = 0 :=
  C4_full_clear [("ETHUSDT", ⟨5, 0⟩)] [] "ETHUSDT" ⟨5, 0⟩ (by with_unfolding_all decide)
    (by with_unfolding_all decide) (by with_unfolding_all decide)
    (by with_unfolding_all decide) (by with_unfolding_all decide)

/-- Distinct keys make the target book's entry for a key unique. -/
theorem target_key_unique {target : TargetBook} (hnd : (target.map Prod.fst).Nodup)
    {s : String} {q q' : ℚ} (h1 : (s, q) ∈ target) (h2 : (s, q') ∈ target) : q = q' := by
  induction target with
  | nil => cases h1
  | cons e rest ih =>
    rw [List.map_cons, List.nodup_cons] at hnd
    rcases List.mem_cons.1 h1 with he1 | he1 <;> rcases List.mem_cons.1 h2 with he2 | he2
    · exact congrArg Prod.snd (he1.trans he2.symm)
    · exact absurd (List.mem_map_of_mem Prod.fst he2)
        (by rw [← he1] at hnd; exact hnd.1)
    · exact absurd (List.mem_map_of_mem Prod.fst he1)
        (by rw [← he2] at hnd; exact hnd.1)
    · exact ih hnd.2 he1 he2

/-- An adjust in a target entry's block pins down the guard that emitted
it: the sign of the target and the unit threshold on the difference. -/
theorem adjust_mem_target_actions {current : CurrentBook} {e : String × ℚ}
    {a : TradeAction} (h : a ∈ target_actions current e)
    (ha : a.action = ActionKind.adjust) :
    (0 < e.2 ∧ 1 < |e.2 - (lookupSide current (format_symbol_for_binance e.1)).long|) ∨
    (e.2 < 0 ∧
      1 < |(|e.2|) - (lookupSide current (format_symbol_for_binance e.1)).short|) := by
  unfold target_actions at h
  dsimp only at h
  split at h
  · next hq =>
    left
    refine ⟨hq, ?_⟩
    rcases List.mem_append.1 h with h1 | h1 <;> split at h1 <;> simp_all
  · next hq0 =>
    split at h
    · next hq =>
      right
      refine ⟨hq, ?_⟩
      rcases List.mem_append.1 h with h1 | h1 <;> split at h1 <;> simp_all
    · rcases List.mem_append.1 h with h1 | h1 <;> split at h1 <;> simp_all

/-- When the guard holds, the target entry's block contains an adjust for
the entry's symbol. -/
theorem target_actions_adjust_intro {current : CurrentBook} {e : String × ℚ}
    (h : (0 < e.2 ∧
        1 < |e.2 - (lookupSide current (format_symbol_for_binance e.1)).long|) ∨
      (e.2 < 0 ∧
        1 < |(|e.2|) - (lookupSide current (format_symbol_for_binance e.1)).short|)) :
    ∃ a ∈ target_actions current e, a.symbol = e.1 ∧ a.action = ActionKind.adjust := by
  unfold target_actions
  dsimp only
  rcases h with ⟨hq, hd⟩ | ⟨hq, hd⟩
  · rw [if_pos hq, if_pos hd]
    exact ⟨_, List.mem_append_right _ (List.mem_singleton_self _), rfl, rfl⟩
  · rw [if_neg (by linarith), if_pos hq, if_pos hd]
    exact ⟨_, List.mem_append_right _ (List.mem_singleton_self _), rfl, rfl⟩

/-- Claim C5, amended: the planner takes no epsilon input — the threshold
is the hardcoded literal `1` of executor.py lines 503 and 526 — and for a
targeted instrument an adjust is emitted iff the absolute difference
between the target magnitude and the current same-side magnitude exceeds
that fixed `1`. -/
theorem C5_amended (current : CurrentBook) (target : TargetBook) (s : String) (q : ℚ)
    (hnd : (target.map Prod.fst).Nodup) (hmem : (s, q) ∈ target) :
    (∃ a ∈ execute_trades_plan current target,
        a.symbol = s ∧ a.action = ActionKind.adjust) ↔
      ((0 < q ∧ 1 < |q - (lookupSide current (format_symbol_for_binance s)).long|) ∨
       (q < 0 ∧
         1 < |(|q|) - (lookupSide current (format_symbol_for_binance s)).short|)) := by
  constructor
  · rintro ⟨a, ha, hsym, hadj⟩
    rcases mem_execute_trades_plan.1 ha with ⟨e, he, hae⟩ | ⟨e, he, hae⟩
    · have hcl := (mem_clear_actions hae).2.1
      rw [hadj] at hcl
      cases hcl
    · have h1 : a.symbol = e.1 := (mem_target_actions hae).1
      have hes : e.1 = s := by rw [h1] at hsym; exact hsym
      have he' : (s, e.2) ∈ target := by rw [← hes]; exact he
      have hq : e.2 = q := target_key_unique hnd he' hmem
      have hg := adjust_mem_target_actions hae hadj
      rw [hes, hq] at hg
      exact hg
  · intro h
    obtain ⟨a, ha, hsym, hadj⟩ := @target_actions_adjust_intro current (s, q) h
    exact ⟨a, mem_execute_trades_plan.2 (Or.inr ⟨(s, q), hmem, ha⟩), hsym, hadj⟩

theorem C5_witness :
    ∃ a ∈ execute_trades_plan [] [("BTCUSDT", (10 : ℚ))],
      a.symbol = "BTCUSDT" ∧ a.action = ActionKind.adjust :=
  (C5_amended [] [("BTCUSDT", (10 : ℚ))] "BTCUSDT" 10 (by with_unfolding_all decide)
    (by with_unfolding_all decide)).mpr (by with_unfolding_all decide)

/-- Claim C5, counterexample: were the epsilon threshold a configurable
input as claimed, configuring it to `2` would forbid this adjust — the
difference is `3/2`, not above `2` — yet the code emits the adjust,
because its threshold is the hardcoded `1`. -/
theorem C5_counterexample :
    (∃ a ∈ execute_trades_plan [] [("BTCUSDT", (3/2 : ℚ))],
        a.symbol = "BTCUSDT" ∧ a.action = ActionKind.adjust) ∧
    ¬ ((2 : ℚ) <
        |(3/2 : ℚ) - (lookupSide [] (format_symbol_for_binance "BTCUSDT")).long|) := by
  constructor <;> with_unfolding_all decide

/-- At price zero the notional `abs(quantity) * 0` stays `0 < 5` forever,
so the padding loop never exits, whatever the iteration budget. -/
theorem pad_loop_price_zero : ∀ (fuel : ℕ) (q : ℚ), pad_loop fuel q 0 = none := by
  intro fuel
  induction fuel with
  | zero => intro q; rfl
  | succ k ih =>
    intro q
    unfold pad_loop
    rw [if_pos]
    · exact ih _
    · rw [mul_zero]
      norm_num

/-- Claim C6: the minimum-notional sizing loop of `place_order`
(executor.py lines 229-234) is a bare `while` with no iteration bound and
no `SizingNonconvergent` failure; at price `0` with requested quantity `1`
(non-reduce-only) it never produces a result, however many iterations it
is allowed — the source loop runs forever. -/
theorem C6_sizing_loop_diverges : ¬ ∃ (K : ℕ) (r : ℚ), pad_loop K 1 0 = some r := by
  rintro ⟨K, r, h⟩
  rw [pad_loop_price_zero] at h
  cases h

/-- Claim C7, amended: with `reduceOnly=True` in `params`, `place_order`
skips the notional padding, so the result is independent of price and
never unbounded — but the quantity is still rewritten by
`int(abs(quantity))` at executor.py line 269 and checked against the
exchange minimum, not passed through exactly. -/
theorem C7_amended (fuel : ℕ) (price quantity min_amount : ℚ) :
    place_order_quantity fuel price quantity true min_amount =
      (if ((⌊|quantity|⌋ : ℤ) : ℚ) < min_amount then none
       else some (((⌊|quantity|⌋ : ℤ) : ℚ))) := by
  unfold place_order_quantity
  simp

/-- Claim C7, counterexample.  First: a reduce-only request of `5/2` comes
back as `2`, not unmodified, because of the `int(abs(quantity))`
truncation.  Second: `execute_trades` invokes `place_order` without any
`reduceOnly` key even for the close action it planned (here the
Scenario-B close of a long of 2), so at price `1` the close is padded up
to the 5-USDT notional floor and submitted as `5`, not `2` — closing is
resized by the notional floor. -/
theorem C7_counterexample :
    place_order_quantity 10 1 (5/2) true 0 = some 2 ∧ (2 : ℚ) ≠ 5/2 ∧
    execute_trades_plan [("ETHUSDT", ⟨2, 0⟩)] [] =
      [⟨"ETHUSDT", OrderSide.sell, 2, PositionSide.LONG, ActionKind.close⟩] ∧
    execute_trades_order_quantity 10 1 0
      ⟨"ETHUSDT", OrderSide.sell, 2, PositionSide.LONG, ActionKind.close⟩ = some 5 ∧
    (5 : ℚ) ≠ 2 := by
  refine ⟨?_, ?_, ?_, ?_, ?_⟩ <;> with_unfolding_all decide

/-- One unfolding of the padding loop. -/
theorem pad_loop_succ (fuel : ℕ) (q p : ℚ) :
    pad_loop (fuel + 1) q p =
      if |q| * p < 5 then pad_loop fuel (if 0 < q then q + 1 else q - 1) p
      else some q := rfl

/-- For a positive integer starting quantity and positive price, the
padding loop adds one unit at a time and stops at the first quantity whose
notional reaches 5: given enough fuel it returns an integer `m ≥ n` whose
notional meets the floor, with `m = n` or `(m - 1) · p` below the floor. -/
theorem pad_loop_int (p : ℚ) :
    ∀ (fuel : ℕ) (n : ℤ), 1 ≤ n → 5 ≤ (n : ℚ) * p + (fuel : ℚ) * p →
      ∃ m : ℤ, pad_loop (fuel + 1) ((n : ℚ)) p = some ((m : ℚ)) ∧ n ≤ m ∧
        5 ≤ (m : ℚ) * p ∧ (m = n ∨ ((m : ℚ) - 1) * p < 5) := by
  intro fuel
  induction fuel with
  | zero =>
    intro n hn hb
    have hpos : (0 : ℚ) < (n : ℚ) := by exact_mod_cast (by omega : (0 : ℤ) < n)
    have h5 : 5 ≤ (n : ℚ) * p := by push_cast at hb; linarith
    rw [pad_loop_succ, if_neg (by rw [abs_of_pos hpos]; linarith)]
    exact ⟨n, rfl, le_refl n, h5, Or.inl rfl⟩
  | succ k ih =>
    intro n hn hb
    have hpos : (0 : ℚ) < (n : ℚ) := by exact_mod_cast (by omega : (0 : ℤ) < n)
    rw [pad_loop_succ]
    by_cases hlt : |(n : ℚ)| * p < 5
    · rw [if_pos hlt, if_pos hpos]
      have hcast : (n : ℚ) + 1 = ((n + 1 : ℤ) : ℚ) := by push_cast; ring
      rw [hcast]
      obtain ⟨m, hm, hle, h5, hmin⟩ := ih (n + 1) (by omega)
        (by push_cast at hb ⊢; ring_nf at hb ⊢; linarith)
      refine ⟨m, hm, by omega, h5, Or.inr ?_⟩
      rcases hmin with rfl | hlt2
      · rw [abs_of_pos hpos] at hlt
        push_cast
        ring_nf
        ring_nf at hlt
        linarith
      · exact hlt2
    · rw [if_neg hlt]
      rw [abs_of_pos hpos, not_lt] at hlt
      exact ⟨n, rfl, le_refl n, hlt, Or.inl rfl⟩

/-- Claim C8, amended: for a non-reduce-only requested quantity that is a
whole number `n ≥ 1` below the notional floor, at a positive price, the
submitted quantity is the least positive integer whose notional reaches
the hardcoded floor of 5 (the lot step being the loop's literal `1`).
Requested quantities already at the floor pass through unpadded, and
fractional ones can end below the floor after `int` truncation (see the
counterexample), so the claim holds only in this amended form. -/
theorem C8_amended (q p : ℚ) (n : ℤ) (hq : q = (n : ℚ)) (hn : 1 ≤ n) (hp : 0 < p)
    (hlow : q * p < 5) :
    ∃ m : ℤ, place_order_quantity (⌈(5 : ℚ) / p⌉₊ + 1) p q false 0 = some ((m : ℚ)) ∧
      0 < m ∧ 5 ≤ (m : ℚ) * p ∧ ∀ k : ℤ, 0 < k → 5 ≤ (k : ℚ) * p → m ≤ k := by
  subst hq
  have hpos : (0 : ℚ) < (n : ℚ) := by exact_mod_cast (by omega : (0 : ℤ) < n)
  have habs : |(n : ℚ)| = (n : ℚ) := abs_of_pos hpos
  have hceil : (5 : ℚ) ≤ (⌈(5 : ℚ) / p⌉₊ : ℚ) * p := by
    have h1 : (5 : ℚ) / p ≤ (⌈(5 : ℚ) / p⌉₊ : ℚ) := Nat.le_ceil _
    calc (5 : ℚ) = 5 / p * p := by field_simp
    _ ≤ (⌈(5 : ℚ) / p⌉₊ : ℚ) * p := mul_le_mul_of_nonneg_right h1 (le_of_lt hp)
  have hb : 5 ≤ (n : ℚ) * p + ((⌈(5 : ℚ) / p⌉₊ : ℕ) : ℚ) * p := by
    have := mul_pos hpos hp
    linarith
  obtain ⟨m, hm, hle, h5, hmin⟩ := pad_loop_int p (⌈(5 : ℚ) / p⌉₊) n hn hb
  have hmlt : ((m : ℚ) - 1) * p < 5 := by
    rcases hmin with rfl | h
    · exact absurd h5 (not_le.2 hlow)
    · exact h
  have hmpos : (0 : ℚ) < (m : ℚ) := by exact_mod_cast (by omega : (0 : ℤ) < m)
  refine ⟨m, ?_, by omega, h5, ?_⟩
  · unfold place_order_quantity
    rw [if_pos ⟨by rwa [habs], rfl⟩, hm]
    dsimp only
    rw [abs_of_pos hmpos, Int.floor_intCast]
    rw [if_neg (not_lt.2 (le_of_lt hmpos))]
  · intro k hk h5k
    by_contra hkm
    rw [not_le] at hkm
    have hk1 : ((k : ℚ)) ≤ ((m : ℚ)) - 1 := by
      exact_mod_cast (by omega : k ≤ m - 1)
    have hkp : (k : ℚ) * p ≤ ((m : ℚ) - 1) * p :=
      mul_le_mul_of_nonneg_right hk1 (le_of_lt hp)
    linarith

theorem C8_witness :
    place_order_quantity (⌈(5 : ℚ) / (2/5)⌉₊ + 1) (2/5) 1 false 0 = some 13 ∧
    ∃ m : ℤ, place_order_quantity (⌈(5 : ℚ) / (2/5)⌉₊ + 1) (2/5) 1 false 0 =
        some ((m : ℚ)) ∧ 0 < m ∧ 5 ≤ (m : ℚ) * (2/5) ∧
      ∀ k : ℤ, 0 < k → 5 ≤ (k : ℚ) * (2/5) → m ≤ k :=
  ⟨by with_unfolding_all decide,
   C8_amended 1 (2/5) 1 (by with_unfolding_all decide) (by with_unfolding_all decide)
     (by with_unfolding_all decide) (by with_unfolding_all decide)⟩

/-- Claim C8, counterexample: the non-reduce-only request of `25/2` at
price `2/5` has notional exactly 5, so the padding loop is skipped, and
the `int(abs(quantity))` truncation then submits `12`, whose notional
`24/5` is below the minimum notional `5` — the output does not satisfy the
claimed floor. -/
theorem C8_counterexample :
    place_order_quantity 20 (2/5) (25/2) false 0 = some 12 ∧
      ¬ ((5 : ℚ) ≤ 12 * (2/5)) := by
  constructor <;> with_unfolding_all decide

/-- The submission loop is the pointwise application of `place_order` to
the plan: no outcome short-circuits it. -/
theorem execute_trades_run_eq_map (fuel : ℕ) (price min_amount : String → ℚ)
    (env : TradeAction → ℚ → Except String OrderRecord) (plan : List TradeAction) :
    execute_trades_run fuel price min_amount env plan =
      plan.map (fun a => (a, place_order_outcome fuel price min_amount env a)) := by
  induction plan with
  | nil => rfl
  | cons a rest ih => unfold execute_trades_run; rw [ih]; rfl

/-- Claim C9: when the `i`-th action of a plan fails permanently —
`place_order` returns `None`, as it does for a below-minimum quantity
(executor.py line 276) or any exception caught at lines 309-311 — the run
still covers the whole plan: the report has one entry per action, the
failed action is recorded with outcome `none`, and every later action is
still executed with its own outcome. -/
theorem C9_failed_leg_continues (fuel : ℕ) (price min_amount : String → ℚ)
    (env : TradeAction → ℚ → Except String OrderRecord) (plan : List TradeAction)
    (i : ℕ) (hi : i < plan.length)
    (hfail : place_order_outcome fuel price min_amount env plan[i] = none) :
    (execute_trades_run fuel price min_amount env plan).length = plan.length ∧
    (execute_trades_run fuel price min_amount env plan)[i]? = some (plan[i], none) ∧
    ∀ j, ∀ hj : j < plan.length, i < j →
      (execute_trades_run fuel price min_amount env plan)[j]? =
        some (plan[j], place_order_outcome fuel price min_amount env plan[j]) := by
  rw [execute_trades_run_eq_map]
  refine ⟨by simp, ?_, ?_⟩
  · rw [List.getElem?_map, List.getElem?_eq_getElem hi]
    simp [hfail]
  · intro j hj hij
    rw [List.getElem?_map, List.getElem?_eq_getElem hj]
    rfl

theorem C9_witness :
    (execute_trades_run 10 (fun _ => 10) (fun _ => 100) (fun _ _ => Except.ok ⟨1⟩)
        [⟨"ETHUSDT", OrderSide.sell, 2, PositionSide.LONG, ActionKind.close⟩,
         ⟨"BTCUSDT", OrderSide.buy, 200, PositionSide.LONG, ActionKind.adjust⟩])[1]? =
      some (⟨"BTCUSDT", OrderSide.buy, 200, PositionSide.LONG, ActionKind.adjust⟩,
        place_order_outcome 10 (fun _ => 10) (fun _ => 100) (fun _ _ => Except.ok ⟨1⟩)
          ⟨"BTCUSDT", OrderSide.buy, 200, PositionSide.LONG, ActionKind.adjust⟩) :=
  (C9_failed_leg_continues 10 (fun _ => 10) (fun _ => 100) (fun _ _ => Except.ok ⟨1⟩)
      [⟨"ETHUSDT", OrderSide.sell, 2, PositionSide.LONG, ActionKind.close⟩,
       ⟨"BTCUSDT", OrderSide.buy, 200, PositionSide.LONG, ActionKind.adjust⟩]
      0 (by with_unfolding_all decide) (by with_unfolding_all decide)).2.2
    1 (by with_unfolding_all decide) (by with_unfolding_all decide)

/-- Claim C10: a failing balance fetch is caught inside
`get_account_balance` and reported as `0.0` rather than propagated, and
since `run_daily_trade` returns when the balance is not strictly positive
(executor.py lines 640-642) before ever calling `execute_trades`, any
fetch failure silently aborts the cycle with no trade planned or
submitted. -/
theorem C10_balance_failure_aborts (e : String) (current : CurrentBook)
    (target : TargetBook) :
    get_account_balance (Except.error e) = 0 ∧
    run_daily_trade_orders (Except.error e) current target = none := by
  constructor
  · rfl
  · unfold run_daily_trade_orders get_account_balance
    rw [if_pos le_rfl]
